import Mathlib

/-!
Verification development for the `ts-safe-path` runtime core
(`src/utils.ts`, `src/index.ts`, `src/schema.ts`).

The embedding models plain JavaScript data values (`JSVal`), the
dot-path accessor functions with their process-wide parse cache
(`parsePath`, `getValueByPath`, `setValueByPath`, `hasPath`,
`deletePath`), the deep-merge routine over an explicit heap (to talk
about in-place mutation versus copying), and the validator engine of
`schema.ts` (`handleResult`, string and number validators).

Modelling conventions:
* mappings are association lists in property-insertion order (JS object
  key order for string keys);
* arrays are lists of optional values (`none` models a hole of a sparse
  array);
* property access is own-property access on plain data; prototype-chain
  lookups (e.g. `({}).toString`) are outside the model;
* strings are compared by code points; `.length` of ASCII strings agrees
  with the JS UTF-16 length;
* JS numbers are modelled as integers (every numeric input exercised by
  the specification's claims is an integer; `NaN` and non-integral
  values are outside the model).
-/

/-- A plain JavaScript runtime value, as handled by `utils.ts`:
`null`, `undefined`, booleans, numbers, strings, arrays
(with `none` for holes of sparse arrays) and plain objects
(association lists in key-insertion order). -/
inductive JSVal where
  | null : JSVal
  | undefined : JSVal
  | bool (b : Bool) : JSVal
  | num (n : Int) : JSVal
  | str (s : String) : JSVal
  | arr (xs : List (Option JSVal)) : JSVal
  | obj (fs : List (String × JSVal)) : JSVal

mutual

/-- Boolean structural equality on `JSVal` (deep value equality). -/
def beqVal : JSVal → JSVal → Bool
  | .null, .null => true
  | .undefined, .undefined => true
  | .bool a, .bool b => a == b
  | .num a, .num b => a == b
  | .str a, .str b => a == b
  | .arr xs, .arr ys => beqArr xs ys
  | .obj fs, .obj gs => beqFields fs gs
  | _, _ => false

def beqArr : List (Option JSVal) → List (Option JSVal) → Bool
  | [], [] => true
  | none :: xs, none :: ys => beqArr xs ys
  | some x :: xs, some y :: ys => beqVal x y && beqArr xs ys
  | _, _ => false

def beqFields : List (String × JSVal) → List (String × JSVal) → Bool
  | [], [] => true
  | (k, v) :: fs, (l, w) :: gs => k == l && beqVal v w && beqFields fs gs
  | _, _ => false

end

mutual

theorem beqVal_iff : ∀ a b, beqVal a b = true ↔ a = b
  | .null, b => by cases b <;> simp [beqVal]
  | .undefined, b => by cases b <;> simp [beqVal]
  | .bool a, b => by cases b <;> simp [beqVal]
  | .num a, b => by cases b <;> simp [beqVal]
  | .str a, b => by cases b <;> simp [beqVal]
  | .arr xs, b => by
    cases b <;> simp [beqVal]
    exact beqArr_iff xs _
  | .obj fs, b => by
    cases b <;> simp [beqVal]
    exact beqFields_iff fs _

theorem beqArr_iff : ∀ xs ys, beqArr xs ys = true ↔ xs = ys
  | [], ys => by cases ys <;> simp [beqArr]
  | none :: xs, ys => by
    match ys with
    | [] => simp [beqArr]
    | none :: ys => simpa [beqArr] using beqArr_iff xs ys
    | some y :: ys => simp [beqArr]
  | some x :: xs, ys => by
    match ys with
    | [] => simp [beqArr]
    | none :: ys => simp [beqArr]
    | some y :: ys =>
      simp [beqArr, Bool.and_eq_true, beqVal_iff x y, beqArr_iff xs ys]

theorem beqFields_iff : ∀ fs gs, beqFields fs gs = true ↔ fs = gs
  | [], gs => by cases gs <;> simp [beqFields]
  | (k, v) :: fs, gs => by
    match gs with
    | [] => simp [beqFields]
    | (l, w) :: gs =>
      simp [beqFields, Bool.and_eq_true, beqVal_iff v w, beqFields_iff fs gs]

end

instance : DecidableEq JSVal := fun a b =>
  decidable_of_iff (beqVal a b = true) (beqVal_iff a b)

namespace JSVal

/-- `value != null && typeof value === 'object'`: objects and arrays.
`typeof null` is `'object'` in JS, but every guard in `utils.ts` pairs
the `typeof` test with a `== null` / truthiness test, so the combined
condition is exactly "array or plain object". -/
def isObjLike : JSVal → Bool
  | .obj _ => true
  | .arr _ => true
  | _ => false

end JSVal

/-- Association-list lookup for object fields (`obj[key]` restricted to
own properties of plain data). -/
def lookupField {α : Type} : List (String × α) → String → Option α
  | [], _ => none
  | (k, v) :: rest, key => if k = key then some v else lookupField rest key

/-- `obj[key] = v`: update the existing binding in place (JS objects keep
the original insertion position on re-assignment) or append a new one. -/
def setField {α : Type} : List (String × α) → String → α → List (String × α)
  | [], key, v => [(key, v)]
  | (k, w) :: rest, key, v =>
    if k = key then (k, v) :: rest else (k, w) :: setField rest key v

/-- `delete obj[key]`: remove the binding if present. -/
def eraseField {α : Type} : List (String × α) → String → List (String × α)
  | [], _ => []
  | (k, w) :: rest, key =>
    if k = key then rest else (k, w) :: eraseField rest key

/-- Decimal digit test for array-index strings. -/
def isDigitChar (c : Char) : Bool := '0' ≤ c && c ≤ '9'

/-- A canonical array-index string ("0", "1", ..., no leading zeros)
and its numeric value; any other string is not an index. -/
def strToIndex (s : String) : Option Nat :=
  match s.data with
  | [] => none
  | cs =>
    if cs.all isDigitChar && (cs.head? ≠ some '0' || cs.length == 1) then
      some (cs.foldl (fun a c => a * 10 + (c.toNat - 48)) 0)
    else
      none

/-- Reading `xs[key]` on an array: the own `length` property, an element
at a canonical numeric index (holes and out-of-range reads give
`undefined`), and `undefined` otherwise. -/
def arrGet (xs : List (Option JSVal)) (k : String) : JSVal :=
  if k = "length" then .num xs.length
  else
    match strToIndex k with
    | some i =>
      match xs[i]? with
      | some (some v) => v
      | _ => .undefined
    | none => .undefined

/-- Property read `v[k]` on plain data (absent properties read as
`undefined`). -/
def getProp (v : JSVal) (k : String) : JSVal :=
  match v with
  | .obj fs => (lookupField fs k).getD .undefined
  | .arr xs => arrGet xs k
  | _ => .undefined

/-- `Object.hasOwn(v, k)` on plain data: for arrays, `length` and the
populated (non-hole) indices are own properties. -/
def hasOwnProp (v : JSVal) (k : String) : Bool
  := match v with
  | .obj fs => (lookupField fs k).isSome
  | .arr xs =>
    if k = "length" then true
    else
      match strToIndex k with
      | some i =>
        match xs[i]? with
        | some (some _) => true
        | _ => false
      | none => false
  | _ => false

/-- Array element assignment `xs[i] = v`; assigning past the end pads
with holes, as JS does for sparse arrays. Assignments through
non-index keys (expando properties, `length` truncation) are outside
the model. -/
def arrSet (xs : List (Option JSVal)) (k : String) (v : JSVal) : List (Option JSVal) :=
  match strToIndex k with
  | some i =>
    if i < xs.length then xs.set i (some v)
    else xs ++ List.replicate (i - xs.length) none ++ [some v]
  | none => xs

/-- Property write `v[k] = w` on plain data. -/
def setProp (v : JSVal) (k : String) (w : JSVal) : JSVal :=
  match v with
  | .obj fs => .obj (setField fs k w)
  | .arr xs => .arr (arrSet xs k w)
  | _ => v

/-- `delete v[k]`: removes an object binding; on arrays, deleting an
index leaves a hole and does not change `length`. -/
def delProp (v : JSVal) (k : String) : JSVal :=
  match v with
  | .obj fs => .obj (eraseField fs k)
  | .arr xs =>
    .arr (match strToIndex k with
      | some i => if i < xs.length then xs.set i none else xs
      | none => xs)
  | _ => v

/-- `path.split(sep)` over the character list (left-to-right, keeping
empty segments, `[""]` on the empty string — exactly JS
`String.prototype.split` with a single-character separator). -/
def splitOnChar (sep : Char) : List Char → List String
  | [] => [""]
  | c :: cs =>
    if c = sep then "" :: splitOnChar sep cs
    else
      match splitOnChar sep cs with
      | s :: ss => String.mk (c :: s.data) :: ss
      | [] => [String.mk [c]]

/-- `path.split('.')` of `parsePath` (`utils.ts`). -/
def splitDot (s : String) : List String := splitOnChar '.' s.data

example : splitDot "a.b" = ["a", "b"] := by decide
example : splitDot "" = [""] := by decide
example : splitDot "a..b" = ["a", "", "b"] := by decide
example : splitDot "a." = ["a", ""] := by decide

/-! ## The path-parse cache (`pathCache` in `utils.ts`)

A `Map<string, string[]>` is modelled as an association list in
insertion order (head = earliest-inserted entry, as produced by
`Map.prototype.keys()`).  Each stateful accessor threads the cache
explicitly; crucially, `setValueByPath` and `deletePath` call
`keys.pop()` on the very array object stored in the cache, so the model
updates the cached entry in place when they do. -/

/-- The process-wide path cache: path string ↦ cached segment array,
in insertion order. -/
abbrev PathCache := List (String × List String)

/-- The empty (fresh) cache. -/
def cache0 : PathCache := []

/-- `pathCache.get(path)` / `pathCache.has(path)` combined: the cached
segment array, if present. -/
def cacheLookup : PathCache → String → Option (List String)
  | [], _ => none
  | (k, v) :: rest, p => if k = p then some v else cacheLookup rest p

/-- Replace the stored segment array of an existing entry, keeping its
position (this models in-place mutation of the cached array object,
e.g. by `keys.pop()`). -/
def cacheUpdateEntry : PathCache → String → List String → PathCache
  | [], _, _ => []
  | (k, w) :: rest, p, v =>
    if k = p then (k, v) :: rest else (k, w) :: cacheUpdateEntry rest p v

/-- `MAX_CACHE_SIZE` from `utils.ts`. -/
def MAX_CACHE_SIZE : Nat := 1000

/-- `parsePath` from `utils.ts`: return the cached segments on a hit;
otherwise split on `'.'`, evict the first (earliest-inserted) entry if
the cache is at capacity — but only when that entry's key is truthy,
i.e. a non-empty string (`if (firstKey)`) — and append the new entry
(`Map.set` places a new key last in insertion order).  Returns the
segments together with the updated cache. -/
def parsePath (c : PathCache) (p : String) : List String × PathCache :=
  match cacheLookup c p with
  | some ks => (ks, c)
  | none =>
    let keys := splitDot p
    let c' :=
      if MAX_CACHE_SIZE ≤ c.length then
        match c with
        | (firstKey, _) :: rest => if firstKey = "" then c else rest
        | [] => c
      else c
    (keys, c' ++ [(p, keys)])

/-! ## The path walkers of `utils.ts`

Each loop body is rendered as structural recursion over the parsed
segment list; the enclosing exported function threads the cache. -/

/-- The segment walk of `getValueByPath`: at each step the loop bails
out with `undefined` when the segment is empty or the current value is
`null`/`undefined`/not an object (`!key || result == null ||
typeof result !== 'object'`); otherwise it moves to `result[key]`. -/
def getSegs : JSVal → List String → JSVal
  | cur, [] => cur
  | cur, k :: ks =>
    if k = "" ∨ cur.isObjLike = false then .undefined
    else getSegs (getProp cur k) ks

/-- The segment walk of `hasPath`: like `getSegs` but with an
own-property existence test (`Object.hasOwn`) at every step, returning
a boolean. -/
def hasSegs : JSVal → List String → Bool
  | _, [] => true
  | cur, k :: ks =>
    if k = "" ∨ cur.isObjLike = false ∨ hasOwnProp cur k = false then false
    else hasSegs (getProp cur k) ks

/-- The intermediate-segment walk of `setValueByPath` (after
`keys.pop()` removed the final key): empty segments are skipped
(`if (!key) continue`); a segment whose key is absent, or whose current
value is not a non-null object (`!(key in current) ||
typeof current[key] !== 'object' || current[key] === null`), is
replaced by a fresh empty mapping; then the walk descends, and the
value is assigned at the final key. -/
def setSegs (cur : JSVal) : List String → (lastKey : String) → JSVal → JSVal
  | [], lastKey, v => setProp cur lastKey v
  | k :: ks, lastKey, v =>
    if k = "" then setSegs cur ks lastKey v
    else
      let cv := getProp cur k
      let child := if hasOwnProp cur k = true ∧ cv.isObjLike = true then cv else .obj []
      setProp cur k (setSegs child ks lastKey v)

/-- The intermediate-segment walk of `deletePath`: `none` models the
early `return target` (abort with no mutation) when a segment is empty
or the current value is not an object or lacks the key; after a full
walk, the final key is deleted if the reached value is a non-null
object. -/
def delSegs (cur : JSVal) : List String → (lastKey : String) → Option JSVal
  | [], lastKey =>
    some (if cur.isObjLike then delProp cur lastKey else cur)
  | k :: ks, lastKey =>
    if k = "" ∨ cur.isObjLike = false ∨ hasOwnProp cur k = false then none
    else (delSegs (getProp cur k) ks lastKey).map (fun w => setProp cur k w)

/-- `getValueByPath` from `utils.ts` (cache-threading wrapper around
the segment walk). -/
def getValueByPath (c : PathCache) (root : JSVal) (p : String) : JSVal × PathCache :=
  let (keys, c') := parsePath c p
  (getSegs root keys, c')

/-- `hasPath` from `utils.ts`. -/
def hasPath (c : PathCache) (root : JSVal) (p : String) : Bool × PathCache :=
  let (keys, c') := parsePath c p
  (hasSegs root keys, c')

/-- `setValueByPath` from `utils.ts`.  `keys.pop()` removes the final
key from the parsed array — the very array object stored in the cache,
so the cache entry for `p` is truncated as a side effect.  A falsy
(missing or empty) final key makes the call a no-op on the root.
The `immutable` option only decides whether a structural clone is
mutated instead of the root; the returned value is the same either
way, so the model omits the option. -/
def setValueByPath (c : PathCache) (root : JSVal) (p : String) (v : JSVal) :
    JSVal × PathCache :=
  let (keys, c1) := parsePath c p
  let c2 := cacheUpdateEntry c1 p keys.dropLast
  match keys.getLast? with
  | none => (root, c2)
  | some lastKey =>
    if lastKey = "" then (root, c2)
    else (setSegs root keys.dropLast lastKey v, c2)

/-- `deletePath` from `utils.ts` (same `keys.pop()` side effect on the
cache as `setValueByPath`). -/
def deletePath (c : PathCache) (root : JSVal) (p : String) : JSVal × PathCache :=
  let (keys, c1) := parsePath c p
  let c2 := cacheUpdateEntry c1 p keys.dropLast
  match keys.getLast? with
  | none => (root, c2)
  | some lastKey =>
    if lastKey = "" then (root, c2)
    else ((delSegs root keys.dropLast lastKey).getD root, c2)

example :
    (setValueByPath cache0 (.obj []) "deeply.nested.path" (.str "value")).1 =
      .obj [("deeply", .obj [("nested", .obj [("path", .str "value")])])] := by
  decide

example :
    (setValueByPath cache0 (.obj []) "a.b" (.num 1)).2 = [("a.b", ["a"])] := by
  decide

/-! ## The validator engine (`schema.ts`)

`BaseValidator` is modelled by a configuration record
(`ValidatorCore`, the `_optional`/`_nullable`/`_defaultValue`/
`_transform` fields) plus `handleResult`, the exact modifier-priority
dispatcher `_handleResult`.  The string and number validator variants
are modelled with their own constraint fields and `_validate` bodies.
A `RegExp` is modelled as an abstract test function plus its printed
form; the `new URL(...)` parseability test is an abstract predicate
passed as a parameter. -/

/-- Decimal digit character. -/
def digitChar (d : Nat) : Char := "0123456789".data.getD d '0'

/-- Decimal rendering of a natural number (fuel-based so that it
reduces inside the kernel; the fuel `n + 1` always suffices). -/
def natToStrAux : Nat → Nat → List Char
  | 0, _ => []
  | f + 1, n =>
    if n < 10 then [digitChar n]
    else natToStrAux f (n / 10) ++ [digitChar (n % 10)]

/-- Decimal rendering of a natural number, as JS renders integral
numbers in template strings. -/
def natToStr (n : Nat) : String := String.mk (natToStrAux (n + 1) n)

/-- Decimal rendering of an integer. -/
def intToStr : Int → String
  | .ofNat n => natToStr n
  | .negSucc n => "-" ++ natToStr (n + 1)

example : intToStr 0 = "0" ∧ intToStr 10 = "10" ∧ intToStr (-5) = "-5" := by decide

/-- A validation error record (`ValidationError` in `schema.ts`). -/
structure VError where
  path : String
  message : String
  received : JSVal
  expected : Option String := none
  deriving DecidableEq

/-- A validation outcome (`ValidationResult<T>` in `schema.ts`):
tagged success with the validated value, or failure with the error
records. -/
inductive VResult where
  | success (data : JSVal) : VResult
  | failure (errors : List VError) : VResult
  deriving DecidableEq

/-- The shared modifier configuration of `BaseValidator`
(field names follow the source). -/
structure ValidatorCore where
  _optional : Bool := false
  _nullable : Bool := false
  _defaultValue : Option JSVal := none
  _transform : Option (JSVal → JSVal) := none

/-- `this._transform ? this._transform(x) : x`. -/
def applyTransform (core : ValidatorCore) (v : JSVal) : JSVal :=
  match core._transform with
  | some f => f v
  | none => v

/-- `BaseValidator._handleResult(data, path, validator)`: the fixed
modifier-priority dispatcher.  `check` is the variant's own structural
check (the closure passed by each `_validate`). -/
def handleResult (core : ValidatorCore) (data : JSVal) (check : Unit → VResult) :
    VResult :=
  if data = .undefined ∧ core._optional = true then .success .undefined
  else if data = .null ∧ core._nullable = true then .success .null
  else if (data = .undefined ∨ data = .null) ∧ core._defaultValue.isSome = true then
    .success (applyTransform core (core._defaultValue.getD .undefined))
  else
    match check () with
    | .failure es => .failure es
    | .success d => .success (applyTransform core d)

/-- A `RegExp`, abstractly: its test function and its printed form
(used in error messages). -/
structure PatternModel where
  test : String → Bool
  printed : String

/-- The configuration of `StringValidator` (field names follow the
source). -/
structure StringValidator where
  core : ValidatorCore := {}
  _minLength : Option Nat := none
  _maxLength : Option Nat := none
  _pattern : Option PatternModel := none
  _email : Bool := false
  _url : Bool := false

/-- The email-shape test `/^[^\s@]+@[^\s@]+\.[^\s@]+$/`: exactly one
`'@'`; a non-empty local part; a domain containing a `'.'` that has at
least one character on each side; no whitespace anywhere (the three
character classes all exclude `\s` and `@`). -/
def isEmailShaped (s : String) : Bool :=
  match splitOnChar '@' s.data with
  | [localPart, domain] =>
    localPart != "" &&
    localPart.data.all (fun c => !c.isWhitespace) &&
    domain.data.all (fun c => !c.isWhitespace) &&
    (List.range domain.data.length).any (fun i =>
      domain.data.get? i == some '.' && decide (1 ≤ i) &&
        decide (i + 2 ≤ domain.data.length))
  | _ => false

example : isEmailShaped "john@example.com" = true := by decide
example : isEmailShaped "ab" = false := by decide
example : isEmailShaped "a@b" = false := by decide
example : isEmailShaped "a@b.c" = true := by decide

/-- The structural check of `StringValidator._validate` (the closure
given to `_handleResult`): the base type check short-circuits; every
configured constraint is then evaluated and each violation appended to
one error list.  `urlOk` abstracts the `new URL(data)` parseability
test. -/
def stringCheck (urlOk : String → Bool) (v : StringValidator) (data : JSVal)
    (path : String) : VResult :=
  match data with
  | .str s =>
    let errors : List VError :=
      (match v._minLength with
       | some m =>
         if s.data.length < m then
           [⟨path, "String must be at least " ++ natToStr m ++ " characters",
             .str s, some ("min length " ++ natToStr m)⟩]
         else []
       | none => []) ++
      (match v._maxLength with
       | some m =>
         if m < s.data.length then
           [⟨path, "String must be at most " ++ natToStr m ++ " characters",
             .str s, some ("max length " ++ natToStr m)⟩]
         else []
       | none => []) ++
      (match v._pattern with
       | some pm =>
         if pm.test s = false then
           [⟨path, "String does not match pattern " ++ pm.printed,
             .str s, some ("pattern " ++ pm.printed)⟩]
         else []
       | none => []) ++
      (if v._email = true ∧ isEmailShaped s = false then
         [⟨path, "Invalid email format", .str s, some "valid email"⟩]
       else []) ++
      (if v._url = true ∧ urlOk s = false then
         [⟨path, "Invalid URL format", .str s, some "valid URL"⟩]
       else [])
    if errors.isEmpty then .success (.str s) else .failure errors
  | _ => .failure [⟨path, "Expected string", data, some "string"⟩]

/-- `StringValidator._validate(data, path)`. -/
def stringValidateAt (urlOk : String → Bool) (v : StringValidator) (data : JSVal)
    (path : String) : VResult :=
  handleResult v.core data (fun _ => stringCheck urlOk v data path)

/-- `StringValidator.validate(data)` (`_validate` at the root path). -/
def stringValidate (urlOk : String → Bool) (v : StringValidator) (data : JSVal) :
    VResult :=
  stringValidateAt urlOk v data ""

/-- The configuration of `NumberValidator` (field names follow the
source).  Numbers are modelled as integers, so the `Number.isNaN` part
of the base type check and the `int()` constraint never fire in the
model. -/
structure NumberValidator where
  core : ValidatorCore := {}
  _min : Option Int := none
  _max : Option Int := none
  _int : Bool := false
  _positive : Bool := false

/-- The structural check of `NumberValidator._validate`: base type
check short-circuits; all configured constraints are evaluated and
every violation collected.  (`Number.isInteger` always holds for the
integer-modelled numbers, so `_int` contributes no error here.) -/
def numberCheck (v : NumberValidator) (data : JSVal) (path : String) : VResult :=
  match data with
  | .num n =>
    let errors : List VError :=
      (match v._min with
       | some m =>
         if n < m then
           [⟨path, "Number must be at least " ++ intToStr m, .num n,
             some (">= " ++ intToStr m)⟩]
         else []
       | none => []) ++
      (match v._max with
       | some m =>
         if m < n then
           [⟨path, "Number must be at most " ++ intToStr m, .num n,
             some ("<= " ++ intToStr m)⟩]
         else []
       | none => []) ++
      (if v._positive = true ∧ n ≤ 0 then
         [⟨path, "Expected positive number", .num n, some "positive number"⟩]
       else [])
    if errors.isEmpty then .success (.num n) else .failure errors
  | _ => .failure [⟨path, "Expected number", data, some "number"⟩]

/-- `NumberValidator._validate(data, path)`. -/
def numberValidateAt (v : NumberValidator) (data : JSVal) (path : String) : VResult :=
  handleResult v.core data (fun _ => numberCheck v data path)

/-- `NumberValidator.validate(data)`. -/
def numberValidate (v : NumberValidator) (data : JSVal) : VResult :=
  numberValidateAt v data ""

/-- `s.string()`. -/
def sString : StringValidator := {}

/-- `s.number()`. -/
def sNumber : NumberValidator := {}

/-- `StringValidator.min(length)` (structural copy with `_minLength`
set). -/
def StringValidator.min (v : StringValidator) (n : Nat) : StringValidator :=
  { v with _minLength := some n }

/-- `StringValidator.max(length)`. -/
def StringValidator.max (v : StringValidator) (n : Nat) : StringValidator :=
  { v with _maxLength := some n }

/-- `StringValidator.email()`. -/
def StringValidator.email (v : StringValidator) : StringValidator :=
  { v with _email := true }

/-- `NumberValidator.min(value)`. -/
def NumberValidator.min (v : NumberValidator) (m : Int) : NumberValidator :=
  { v with _min := some m }

/-- `NumberValidator.max(value)`. -/
def NumberValidator.max (v : NumberValidator) (m : Int) : NumberValidator :=
  { v with _max := some m }

/-! ## `deepMerge` (`index.ts`) over an explicit heap

To reason about in-place mutation versus copying, mappings are placed
in an explicit heap: an association list from addresses to field
lists, together with an allocation counter (fresh addresses are taken
at the counter).  A field holds either a primitive-ish value by value
(`hprim`: `null`, `undefined`, booleans, numbers, strings, arrays —
`deepMerge` never merges into an array, it only replaces it wholesale,
so array identity is irrelevant) or a reference to a heap mapping
(`href`).  Object-valued fields are always `href`s in heaps built by
the model.  The source argument of `deepMerge` is only ever read, so
it stays a pure `JSVal` tree; when the code stores a source subobject
into the result (`result[key] = sourceValue`), the model copies that
subtree into fresh addresses, which is observationally equivalent
because nothing ever mutates or identity-compares the source.
Recursion is fuel-bounded; any fuel at least the depth of the source
tree yields the exact behavior, and the mutation-related theorems
below hold for every fuel.  Only the mutable mode (`immutable =
false`, the branch `{ ...target }`) is modelled here. -/

/-- A heap field value: a primitive-ish value by value, or a reference
to a heap-allocated mapping. -/
inductive HVal where
  | hprim (v : JSVal) : HVal
  | href (a : Nat) : HVal
  deriving DecidableEq

/-- The heap: address ↦ field list of the mapping allocated there. -/
abbrev Heap := List (Nat × List (String × HVal))

/-- Heap lookup. -/
def heapLookup : Heap → Nat → Option (List (String × HVal))
  | [], _ => none
  | (b, o) :: rest, a => if b = a then some o else heapLookup rest a

/-- Store a field list at an address (update in place or append). -/
def heapSet : Heap → Nat → List (String × HVal) → Heap
  | [], a, o => [(a, o)]
  | (b, p) :: rest, a, o =>
    if b = a then (b, o) :: rest else (b, p) :: heapSet rest a o

/-- `heapObj[k] = v` for the mapping at address `a`. -/
def heapSetField (h : Heap) (a : Nat) (k : String) (v : HVal) : Heap :=
  heapSet h a (setField ((heapLookup h a).getD []) k v)

/-- Copy a pure source value into the heap, allocating fresh addresses
for its objects (models storing a reference to a source subobject:
observationally equivalent for a source that is never mutated).
The fold state is the evolving heap/counter paired with the field list
built so far. -/
def materializeM : Nat → Heap → Nat → JSVal → (Heap × Nat) × HVal
  | 0, h, c, _ => ((h, c), .hprim .undefined)
  | f + 1, h, c, v =>
    match v with
    | .obj fs =>
      let st := fs.foldl
        (fun (acc : (Heap × Nat) × List (String × HVal)) kv =>
          let m := materializeM f acc.1.1 acc.1.2 kv.2
          (m.1, acc.2 ++ [(kv.1, m.2)]))
        ((heapSet h c [], c + 1), [])
      ((heapSet st.1.1 c st.2, st.1.2), .href c)
    | v => ((h, c), .hprim v)

/-- `deepMerge(target, source, false)` from `index.ts` (mutable mode):
`result` is a fresh shallow copy `{ ...target }` allocated at the
current counter; then, for each own key of the source in order: skip a
source value of `undefined`; if the source value and the current
`result[key]` are both non-null, non-array mappings, recurse (the
recursion shallow-copies again, so no pre-existing mapping is ever
written to) and store the recursion's result; otherwise store the
source value outright.  Returns the address of `result`. -/
def deepMergeM : Nat → Heap → Nat → Nat → List (String × JSVal) → (Heap × Nat) × Nat
  | 0, h, c, t, _ => ((h, c), t)
  | f + 1, h, c, t, src =>
    (src.foldl
      (fun (hc : Heap × Nat) kv =>
        match kv.2 with
        | .undefined => hc
        | .obj sfs =>
          match lookupField ((heapLookup hc.1 c).getD []) kv.1 with
          | some (.href a) =>
            let m := deepMergeM f hc.1 hc.2 a sfs
            (heapSetField m.1.1 c kv.1 (.href m.2), m.1.2)
          | _ =>
            let m := materializeM f hc.1 hc.2 (.obj sfs)
            (heapSetField m.1.1 c kv.1 m.2, m.1.2)
        | sv => (heapSetField hc.1 c kv.1 (.hprim sv), hc.2))
      (heapSet h c ((heapLookup h t).getD []), c + 1), c)

/-- `Object.assign(target, result)`: every own field of `result` is
written onto `target` (existing bindings keep their position, new ones
are appended). -/
def objectAssign (tFields rFields : List (String × HVal)) : List (String × HVal) :=
  rFields.foldl (fun acc kv => setField acc kv.1 kv.2) tFields

/-- `safePath(...).merge(partial)` in mutable mode (`index.ts`):
`deepMerge(obj, partial, false)` followed by `Object.assign(obj,
result)`; the facade returns `result` (the shallow copy), while the
bound root `t` is updated in place at the top level only. -/
def safePathMergeMut (fuel : Nat) (h : Heap) (c : Nat) (t : Nat)
    (src : List (String × JSVal)) : (Heap × Nat) × Nat :=
  ((heapSet (deepMergeM fuel h c t src).1.1 t
      (objectAssign ((heapLookup (deepMergeM fuel h c t src).1.1 t).getD [])
        ((heapLookup (deepMergeM fuel h c t src).1.1
          (deepMergeM fuel h c t src).2).getD [])),
    (deepMergeM fuel h c t src).1.2),
    (deepMergeM fuel h c t src).2)

/-- All allocated addresses lie below the allocation counter. -/
def HeapBound (h : Heap) (c : Nat) : Prop := ∀ p ∈ h, p.1 < c

instance (h : Heap) (c : Nat) : Decidable (HeapBound h c) :=
  inferInstanceAs (Decidable (∀ p ∈ h, p.1 < c))

theorem heapLookup_heapSet_ne (h : Heap) (a b : Nat) (o : List (String × HVal))
    (hne : b ≠ a) : heapLookup (heapSet h a o) b = heapLookup h b := by
  induction h with
  | nil => simp [heapSet, heapLookup, Ne.symm hne]
  | cons p rest ih =>
    obtain ⟨x, q⟩ := p
    by_cases hxa : x = a
    · subst hxa
      simp [heapSet, heapLookup, Ne.symm hne]
    · simp only [heapSet, if_neg hxa, heapLookup]
      by_cases hxb : x = b <;> simp [hxb, ih]

theorem mem_heapSet (h : Heap) (a : Nat) (o : List (String × HVal)) :
    ∀ p ∈ heapSet h a o, p.1 = a ∨ p ∈ h := by
  induction h with
  | nil => simp [heapSet]
  | cons q rest ih =>
    obtain ⟨x, w⟩ := q
    intro p hp
    by_cases hxa : x = a
    · subst hxa
      simp only [heapSet, if_true, eq_self_iff_true, List.mem_cons] at hp
      rcases hp with hp | hp
      · subst hp; exact Or.inl rfl
      · exact Or.inr (List.mem_cons_of_mem _ hp)
    · simp only [heapSet, if_neg hxa, List.mem_cons] at hp
      rcases hp with hp | hp
      · subst hp; exact Or.inr (List.mem_cons_self _ _)
      · rcases ih p hp with hl | hl
        · exact Or.inl hl
        · exact Or.inr (List.mem_cons_of_mem _ hl)

theorem HeapBound.mono {h : Heap} {c c' : Nat} (hb : HeapBound h c) (hle : c ≤ c') :
    HeapBound h c' := fun p hp => lt_of_lt_of_le (hb p hp) hle

theorem HeapBound.set {h : Heap} {c a : Nat} {o : List (String × HVal)}
    (hb : HeapBound h c) (ha : a < c) : HeapBound (heapSet h a o) c := by
  intro p hp
  rcases mem_heapSet h a o p hp with h1 | h1
  · exact h1 ▸ ha
  · exact hb p h1

theorem heapLookup_lt {h : Heap} {c a : Nat} {o : List (String × HVal)}
    (hb : HeapBound h c) (hl : heapLookup h a = some o) : a < c := by
  induction h with
  | nil => simp [heapLookup] at hl
  | cons q rest ih =>
    obtain ⟨x, w⟩ := q
    by_cases hxa : x = a
    · subst hxa
      exact hb _ (List.mem_cons_self _ _)
    · simp only [heapLookup, if_neg hxa] at hl
      exact ih (fun p hp => hb p (List.mem_cons_of_mem _ hp)) hl

theorem heapSetField_lookup_ne (h : Heap) (r : Nat) (k : String) (v : HVal)
    {a : Nat} (hne : a ≠ r) :
    heapLookup (heapSetField h r k v) a = heapLookup h a :=
  heapLookup_heapSet_ne _ _ _ _ hne

theorem HeapBound.setField {h : Heap} {c r : Nat} {k : String} {v : HVal}
    (hb : HeapBound h c) (hr : r < c) : HeapBound (heapSetField h r k v) c :=
  hb.set hr

/-- Invariant preservation along a left fold whose state contains a
heap and an allocation counter: if each step preserves the invariant,
never decreases the counter, and leaves every address below the
incoming counter (other than the excluded address `r`) untouched, then
so does the whole fold. -/
theorem foldl_heap_pres {σ β : Type} (proj : σ → Heap × Nat) (r : Nat)
    (step : σ → β → σ) (P : σ → Prop)
    (hstep : ∀ s b, P s → P (step s b) ∧
      (proj s).2 ≤ (proj (step s b)).2 ∧
      ∀ a, a < (proj s).2 → a ≠ r →
        heapLookup (proj (step s b)).1 a = heapLookup (proj s).1 a) :
    ∀ (l : List β) (s : σ), P s → P (List.foldl step s l) ∧
      (proj s).2 ≤ (proj (List.foldl step s l)).2 ∧
      ∀ a, a < (proj s).2 → a ≠ r →
        heapLookup (proj (List.foldl step s l)).1 a = heapLookup (proj s).1 a := by
  intro l
  induction l with
  | nil => exact fun s hP => ⟨hP, le_refl _, fun a _ _ => rfl⟩
  | cons b t ih =>
    intro s hP
    obtain ⟨hP1, hc1, hl1⟩ := hstep s b hP
    obtain ⟨hP2, hc2, hl2⟩ := ih (step s b) hP1
    exact ⟨hP2, le_trans hc1 hc2, fun a ha hr => by
      rw [List.foldl_cons, hl2 a (lt_of_lt_of_le ha hc1) hr, hl1 a ha hr]⟩

/-- `materializeM` only allocates: the counter never decreases, the
address bound is maintained, and every pre-existing address keeps its
content. -/
theorem materializeM_frame :
    ∀ (f : Nat) (v : JSVal) (h : Heap) (c : Nat), HeapBound h c →
      c ≤ (materializeM f h c v).1.2 ∧
      HeapBound (materializeM f h c v).1.1 (materializeM f h c v).1.2 ∧
      ∀ a, a < c → heapLookup (materializeM f h c v).1.1 a = heapLookup h a := by
  intro f
  induction f with
  | zero => exact fun v h c hb => ⟨le_refl _, hb, fun a _ => rfl⟩
  | succ f ih =>
    intro v h c hb
    cases v with
    | obj fs =>
      simp only [materializeM]
      have h0 : HeapBound (heapSet h c []) (c + 1) :=
        (hb.mono (Nat.le_succ c)).set (Nat.lt_succ_self c)
      obtain ⟨hP, hc, hl⟩ := foldl_heap_pres Prod.fst c
        (fun (acc : (Heap × Nat) × List (String × HVal)) kv =>
          let m := materializeM f acc.1.1 acc.1.2 kv.2
          (m.1, acc.2 ++ [(kv.1, m.2)]))
        (fun s => HeapBound s.1.1 s.1.2 ∧ c + 1 ≤ s.1.2)
        (by
          intro s kv hP
          obtain ⟨hbS, hcS⟩ := hP
          obtain ⟨hm1, hm2, hm3⟩ := ih kv.2 s.1.1 s.1.2 hbS
          exact ⟨⟨hm2, le_trans hcS hm1⟩, hm1, fun a ha _ => hm3 a ha⟩)
        fs ((heapSet h c [], c + 1), []) ⟨h0, le_refl _⟩
      refine ⟨le_trans (Nat.le_succ c) hc, hP.1.set ?_, ?_⟩
      · exact lt_of_lt_of_le (Nat.lt_succ_self c) hc
      · intro a ha
        have hne : a ≠ c := Nat.ne_of_lt ha
        rw [heapLookup_heapSet_ne _ _ _ _ hne,
          hl a (Nat.lt_succ_of_lt ha) hne,
          heapLookup_heapSet_ne _ _ _ _ hne]
    | null => exact ⟨le_refl _, hb, fun a _ => rfl⟩
    | undefined => exact ⟨le_refl _, hb, fun a _ => rfl⟩
    | bool b => exact ⟨le_refl _, hb, fun a _ => rfl⟩
    | num n => exact ⟨le_refl _, hb, fun a _ => rfl⟩
    | str s => exact ⟨le_refl _, hb, fun a _ => rfl⟩
    | arr xs => exact ⟨le_refl _, hb, fun a _ => rfl⟩

/-- `deepMerge` in mutable mode only allocates and writes into the
freshly allocated copies: the counter never decreases, the address
bound is maintained, and every pre-existing address keeps its content
— in particular, no nested mapping of the target is ever mutated. -/
theorem deepMergeM_frame :
    ∀ (f : Nat) (src : List (String × JSVal)) (h : Heap) (c t : Nat), HeapBound h c →
      c ≤ (deepMergeM f h c t src).1.2 ∧
      HeapBound (deepMergeM f h c t src).1.1 (deepMergeM f h c t src).1.2 ∧
      ∀ a, a < c → heapLookup (deepMergeM f h c t src).1.1 a = heapLookup h a := by
  intro f
  induction f with
  | zero => exact fun src h c t hb => ⟨le_refl _, hb, fun a _ => rfl⟩
  | succ f ih =>
    intro src h c t hb
    simp only [deepMergeM]
    have h0 : HeapBound (heapSet h c ((heapLookup h t).getD [])) (c + 1) :=
      (hb.mono (Nat.le_succ c)).set (Nat.lt_succ_self c)
    obtain ⟨hP, hc, hl⟩ := foldl_heap_pres (fun s => s) c
      (fun (hc : Heap × Nat) kv =>
        match kv.2 with
        | .undefined => hc
        | .obj sfs =>
          match lookupField ((heapLookup hc.1 c).getD []) kv.1 with
          | some (.href a) =>
            let m := deepMergeM f hc.1 hc.2 a sfs
            (heapSetField m.1.1 c kv.1 (.href m.2), m.1.2)
          | _ =>
            let m := materializeM f hc.1 hc.2 (.obj sfs)
            (heapSetField m.1.1 c kv.1 m.2, m.1.2)
        | sv => (heapSetField hc.1 c kv.1 (.hprim sv), hc.2))
      (fun s => HeapBound s.1 s.2 ∧ c + 1 ≤ s.2)
      (by
        intro s kv hP
        obtain ⟨hbS, hcS⟩ := hP
        have hcC : c < s.2 := lt_of_lt_of_le (Nat.lt_succ_self c) hcS
        rcases kv with ⟨k, sv⟩
        cases sv with
        | undefined => exact ⟨⟨hbS, hcS⟩, le_refl _, fun a _ _ => rfl⟩
        | obj sfs =>
          rcases hfld : lookupField ((heapLookup s.1 c).getD []) k with _ | fv
          · obtain ⟨hm1, hm2, hm3⟩ := materializeM_frame f (.obj sfs) s.1 s.2 hbS
            simp only [hfld]
            refine ⟨⟨hm2.setField (lt_of_lt_of_le hcC hm1), le_trans hcS hm1⟩,
              hm1, fun a ha hne => ?_⟩
            rw [heapSetField_lookup_ne _ _ _ _ hne, hm3 a ha]
          · cases fv with
            | hprim w =>
              obtain ⟨hm1, hm2, hm3⟩ := materializeM_frame f (.obj sfs) s.1 s.2 hbS
              simp only [hfld]
              refine ⟨⟨hm2.setField (lt_of_lt_of_le hcC hm1), le_trans hcS hm1⟩,
                hm1, fun a ha hne => ?_⟩
              rw [heapSetField_lookup_ne _ _ _ _ hne, hm3 a ha]
            | href b =>
              obtain ⟨hm1, hm2, hm3⟩ := ih sfs s.1 s.2 b hbS
              simp only [hfld]
              refine ⟨⟨hm2.setField (lt_of_lt_of_le hcC hm1), le_trans hcS hm1⟩,
                hm1, fun a ha hne => ?_⟩
              rw [heapSetField_lookup_ne _ _ _ _ hne, hm3 a ha]
        | null =>
          exact ⟨⟨hbS.setField hcC, hcS⟩, le_refl _, fun a _ hne =>
            heapSetField_lookup_ne _ _ _ _ hne⟩
        | bool b =>
          exact ⟨⟨hbS.setField hcC, hcS⟩, le_refl _, fun a _ hne =>
            heapSetField_lookup_ne _ _ _ _ hne⟩
        | num n =>
          exact ⟨⟨hbS.setField hcC, hcS⟩, le_refl _, fun a _ hne =>
            heapSetField_lookup_ne _ _ _ _ hne⟩
        | str s' =>
          exact ⟨⟨hbS.setField hcC, hcS⟩, le_refl _, fun a _ hne =>
            heapSetField_lookup_ne _ _ _ _ hne⟩
        | arr xs =>
          exact ⟨⟨hbS.setField hcC, hcS⟩, le_refl _, fun a _ hne =>
            heapSetField_lookup_ne _ _ _ _ hne⟩)
      src (heapSet h c ((heapLookup h t).getD []), c + 1) ⟨h0, le_refl _⟩
    refine ⟨le_trans (Nat.le_succ c) hc, hP.1, fun a ha => ?_⟩
    have hne : a ≠ c := Nat.ne_of_lt ha
    rw [hl a (Nat.lt_succ_of_lt ha) hne, heapLookup_heapSet_ne _ _ _ _ hne]

/-! ## Supporting lemmas about the path walkers -/

theorem lookupField_setField_self {α : Type} (fs : List (String × α)) (k : String)
    (v : α) : lookupField (setField fs k v) k = some v := by
  induction fs with
  | nil => simp [setField, lookupField]
  | cons q rest ih =>
    obtain ⟨x, w⟩ := q
    by_cases hxk : x = k
    · subst hxk
      simp [setField, lookupField]
    · simp [setField, lookupField, hxk, ih]

theorem getProp_setProp_obj (fs : List (String × JSVal)) (k : String) (w : JSVal) :
    getProp (setProp (.obj fs) k w) k = w := by
  simp [setProp, getProp, lookupField_setField_self]

/-- `getSegs` on the `undefined` value is `undefined` for every
segment list (both the empty-walk case and the short-circuit case). -/
theorem getSegs_undefined : ∀ ks : List String, getSegs .undefined ks = .undefined := by
  intro ks
  cases ks <;> simp [getSegs, JSVal.isObjLike]

/-- The walk of `getValueByPath` decomposes along concatenation of
segment lists: walking `ks1 ++ ks2` is walking `ks2` from wherever
`ks1` led. -/
theorem getSegs_append (ks1 : List String) :
    ∀ (cur : JSVal) (ks2 : List String),
      getSegs cur (ks1 ++ ks2) = getSegs (getSegs cur ks1) ks2 := by
  induction ks1 with
  | nil => intro cur ks2; rfl
  | cons k t ih =>
    intro cur ks2
    by_cases hbad : k = "" ∨ cur.isObjLike = false
    · rw [List.cons_append]
      simp only [getSegs, if_pos hbad]
      exact (getSegs_undefined ks2).symm
    · rw [List.cons_append]
      simp only [getSegs, if_neg hbad]
      exact ih (getProp cur k) ks2

theorem getProp_obj_setField (fs : List (String × JSVal)) (k : String) (w : JSVal) :
    getProp (.obj (setField fs k w)) k = w := by
  simp [getProp, lookupField_setField_self]

theorem getSegs_cons_obj (fs : List (String × JSVal)) (k : String)
    (ks : List String) (hk : k ≠ "") :
    getSegs (.obj fs) (k :: ks) = getSegs (getProp (.obj fs) k) ks := by
  simp [getSegs, JSVal.isObjLike, hk]

theorem setSegs_cons_ne (cur : JSVal) (k : String) (ks : List String)
    (lastKey : String) (v : JSVal) (hk : k ≠ "") :
    setSegs cur (k :: ks) lastKey v =
      setProp cur k
        (setSegs
          (if hasOwnProp cur k = true ∧ (getProp cur k).isObjLike = true then
            getProp cur k
          else .obj [])
          ks lastKey v) := by
  simp [setSegs, hk]

mutual

/-- `noArrays`: the value contains no array anywhere (used to state the
read-after-write property away from the sparse-array corner cases). -/
def noArrays : JSVal → Bool
  | .arr _ => false
  | .obj fs => noArraysFields fs
  | _ => true

/-- `noArrays` over an object's field list. -/
def noArraysFields : List (String × JSVal) → Bool
  | [] => true
  | kv :: rest => noArrays kv.2 && noArraysFields rest

end

theorem noArrays_lookupField {fs : List (String × JSVal)} {k : String} {w : JSVal}
    (hno : noArrays (.obj fs) = true) (hl : lookupField fs k = some w) :
    noArrays w = true := by
  induction fs with
  | nil => simp [lookupField] at hl
  | cons q rest ih =>
    obtain ⟨x, u⟩ := q
    simp only [noArrays, noArraysFields, Bool.and_eq_true] at hno
    by_cases hxk : x = k
    · subst hxk
      simp only [lookupField, eq_self_iff_true, if_true, Option.some.injEq] at hl
      exact hl ▸ hno.1
    · simp only [lookupField, if_neg hxk] at hl
      exact ih (by simp [noArrays, hno.2]) hl

theorem isObjLike_noArrays_obj {w : JSVal} (h1 : w.isObjLike = true)
    (h2 : noArrays w = true) : ∃ gs, w = JSVal.obj gs := by
  cases w with
  | obj gs => exact ⟨gs, rfl⟩
  | arr xs => simp [noArrays] at h2
  | null => simp [JSVal.isObjLike] at h1
  | undefined => simp [JSVal.isObjLike] at h1
  | bool b => simp [JSVal.isObjLike] at h1
  | num n => simp [JSVal.isObjLike] at h1
  | str s => simp [JSVal.isObjLike] at h1

/-- Read-after-write along the written path: on an array-free root
mapping, `setSegs` followed by the `getSegs` walk of the full segment
list recovers the written value (the auto-vivification property of
`setValueByPath`, at the segment level). -/
theorem getSegs_setSegs :
    ∀ (ks : List String) (M : JSVal) (lastKey : String) (v : JSVal),
      (∀ s ∈ ks, s ≠ "") → lastKey ≠ "" →
      (∃ fs, M = .obj fs) → noArrays M = true →
      getSegs (setSegs M ks lastKey v) (ks ++ [lastKey]) = v := by
  intro ks
  induction ks with
  | nil =>
    rintro M lastKey v _ hlast ⟨fs, rfl⟩ _
    show getSegs (setProp (.obj fs) lastKey v) [lastKey] = v
    simp only [setProp]
    rw [getSegs_cons_obj _ _ _ hlast, getProp_obj_setField]
    rfl
  | cons k t ih =>
    rintro M lastKey v hks hlast ⟨fs, rfl⟩ hno
    have hk : k ≠ "" := hks k (List.mem_cons_self _ _)
    rw [setSegs_cons_ne _ _ _ _ _ hk, List.cons_append]
    simp only [setProp]
    rw [getSegs_cons_obj _ _ _ hk, getProp_obj_setField]
    by_cases hcond :
        hasOwnProp (JSVal.obj fs) k = true ∧ (getProp (JSVal.obj fs) k).isObjLike = true
    · rw [if_pos hcond]
      obtain ⟨hown, hobj⟩ := hcond
      have hsome : (lookupField fs k).isSome = true := by
        simpa [hasOwnProp] using hown
      obtain ⟨w, hw⟩ := Option.isSome_iff_exists.mp hsome
      have hcvw : getProp (JSVal.obj fs) k = w := by simp [getProp, hw]
      have hnow : noArrays w = true := noArrays_lookupField hno hw
      exact ih (getProp (JSVal.obj fs) k) lastKey v
        (fun s hs => hks s (List.mem_cons_of_mem _ hs)) hlast
        (isObjLike_noArrays_obj hobj (hcvw ▸ hnow)) (hcvw ▸ hnow)
    · rw [if_neg hcond]
      exact ih (JSVal.obj []) lastKey v (fun s hs => hks s (List.mem_cons_of_mem _ hs))
        hlast ⟨[], rfl⟩ (by simp [noArrays, noArraysFields])

/-! ## The claims -/

/-- C1.  The claim states that with the shared parse cache,
`has(set(M, P, v), P)` is true and `get(set(M, P, v), P) === v`.
On the code this fails: `setValueByPath` calls `keys.pop()` on the very
segment array that `parsePath` stored in the cache, so the following
`get` of the same path string walks the truncated segment list
`["a"]` instead of `["a", "b"]` and returns the parent mapping
`{ b: 1 }`, not `v = 1` (`has` happens to return `true` here, but only
because it too walks the truncated list).  This theorem evaluates the
model at the failing input `M = {}`, `P = "a.b"`, `v = 1`, starting
from a fresh cache. -/
theorem c1_get_after_set_cache_bug :
    (setValueByPath cache0 (.obj []) "a.b" (.num 1)).1 =
      .obj [("a", .obj [("b", .num 1)])] ∧
    (hasPath (setValueByPath cache0 (.obj []) "a.b" (.num 1)).2
      (setValueByPath cache0 (.obj []) "a.b" (.num 1)).1 "a.b").1 = true ∧
    (getValueByPath (setValueByPath cache0 (.obj []) "a.b" (.num 1)).2
      (setValueByPath cache0 (.obj []) "a.b" (.num 1)).1 "a.b").1 =
      .obj [("b", .num 1)] ∧
    (getValueByPath (setValueByPath cache0 (.obj []) "a.b" (.num 1)).2
      (setValueByPath cache0 (.obj []) "a.b" (.num 1)).1 "a.b").1 ≠ .num 1 := by
  decide

/-- C2.  The claim states that a cached segment sequence is immutable
once created and that no subsequent operation (including `set` on the
same path string) changes what a later parse returns.  On the code
this fails: after `parsePath` has cached `["a", "b"]` for `"a.b"`, a
`setValueByPath` on the same path pops the cached array itself, and
the next parse returns `["a"]`, which is not value-equal to
`"a.b".split('.')`. -/
theorem c2_cached_segments_mutated_by_set :
    (parsePath cache0 "a.b").1 = ["a", "b"] ∧
    splitDot "a.b" = ["a", "b"] ∧
    (parsePath
      (setValueByPath (parsePath cache0 "a.b").2 (.obj []) "a.b" (.num 1)).2
      "a.b").1 = ["a"] ∧
    (["a"] : List String) ≠ ["a", "b"] := by
  decide

/-- C3.  The claim states that `delete(set(M, P, v), P)` removes the
final key at P and a subsequent `has` on P is false.  On the code this
fails for the same cache-mutation reason as C1: after
`set({}, "a.b", 1)` the cache holds `["a"]` for `"a.b"`; `deletePath`
pops that to `[]` with final key `"a"` and deletes the whole `"a"`
subtree (yielding `{}` instead of `{ a: {} }`), and the subsequent
`has` walks the now-empty cached segment list and returns `true`, not
`false`. -/
theorem c3_delete_after_set_cache_bug :
    (deletePath (setValueByPath cache0 (.obj []) "a.b" (.num 1)).2
      (setValueByPath cache0 (.obj []) "a.b" (.num 1)).1 "a.b").1 = .obj [] ∧
    (hasPath
      (deletePath (setValueByPath cache0 (.obj []) "a.b" (.num 1)).2
        (setValueByPath cache0 (.obj []) "a.b" (.num 1)).1 "a.b").2
      (deletePath (setValueByPath cache0 (.obj []) "a.b" (.num 1)).2
        (setValueByPath cache0 (.obj []) "a.b" (.num 1)).1 "a.b").1
      "a.b").1 = true := by
  decide

/-- C5 counterexample.  The claim says that a sequence encountered
mid-walk short-circuits `get` to an absent result.  It does not: JS
arrays satisfy `typeof x === 'object'`, so `getValueByPath` indexes
into the array and here returns `5`, not `undefined`, for the path
`"a.0"` on `{ a: [5] }`. -/
theorem c5_sequence_is_traversed_not_short_circuited :
    (getValueByPath cache0 (.obj [("a", .arr [some (.num 5)])]) "a.0").1 =
      .num 5 ∧
    JSVal.num 5 ≠ JSVal.undefined := by
  decide

/-- C5 amended.  `get` walks the parsed segments and short-circuits to
`undefined` (never an error) **when the current value is
null/undefined or a scalar — not an object**; sequences count as
objects and are traversed into.  It also returns `undefined` when the
path is empty.  Conjuncts: (empty path ⇒ absent); (walking a path is
walking its `split('.')` segments); (the walk decomposes along
concatenation); (whenever the walk has reached a non-object — null,
undefined or scalar — with segments still left, the result is
`undefined`). -/
theorem c5_get_short_circuit_amended :
    (∀ root : JSVal, (getValueByPath cache0 root "").1 = .undefined) ∧
    (∀ (root : JSVal) (p : String),
      (getValueByPath cache0 root p).1 = getSegs root (splitDot p)) ∧
    (∀ (root : JSVal) (ks1 ks2 : List String),
      getSegs root (ks1 ++ ks2) = getSegs (getSegs root ks1) ks2) ∧
    (∀ (root : JSVal) (ks1 : List String) (k : String) (ks2 : List String),
      (getSegs root ks1).isObjLike = false →
      getSegs root (ks1 ++ k :: ks2) = .undefined) := by
  refine ⟨?_, ?_, ?_, ?_⟩
  · intro root
    have hsplit : splitDot "" = [""] := rfl
    simp [getValueByPath, parsePath, cache0, cacheLookup, hsplit, getSegs]
  · intro root p
    simp [getValueByPath, parsePath, cache0, cacheLookup]
  · exact fun root ks1 ks2 => getSegs_append ks1 root ks2
  · intro root ks1 k ks2 habs
    rw [getSegs_append]
    simp [getSegs, habs]

/-- Witness for the amended C5, at `root = { a: 1 }`, `ks1 = ["a"]`,
`k = "b"`: the walk has reached the scalar `1`, so the longer path
reads as `undefined`. -/
theorem c5_get_short_circuit_amended_witness :
    (getSegs (.obj [("a", .num 1)]) ["a"]).isObjLike = false ∧
    getSegs (.obj [("a", .num 1)]) (["a"] ++ ["b"]) = .undefined :=
  ⟨by decide,
    c5_get_short_circuit_amended.2.2.2 (.obj [("a", .num 1)]) ["a"] "b" []
      (by decide)⟩

/-- C6 counterexample.  The claim says every intermediate segment whose
value is not a non-null **mapping** is replaced with a fresh empty
mapping; but a sequence is `typeof 'object'`, so `setValueByPath`
descends into an existing array instead of replacing it:
`set({ a: [7] }, "a.0", 9)` yields `{ a: [9] }`, not
`{ a: { "0": 9 } }`. -/
theorem c6_array_intermediate_not_replaced :
    (setValueByPath cache0 (.obj [("a", .arr [some (.num 7)])]) "a.0" (.num 9)).1 =
      .obj [("a", .arr [some (.num 9)])] ∧
    JSVal.obj [("a", .arr [some (.num 9)])] ≠
      JSVal.obj [("a", .obj [("0", .num 9)])] := by
  decide

/-- C6 amended.  During `set`, an intermediate segment whose key is
absent or whose current value is not a non-null **object** (mappings
and sequences both count as objects; an existing sequence is descended
into, not replaced) is replaced with a fresh empty mapping before
descending, and the value is assigned at the final key.  Conjuncts:
(the concrete scenario `set({}, "deeply.nested.path", "value")`);
(the replacement rule at one step, on the segment walk); (the
resulting read-after-write property on array-free roots). -/
theorem c6_set_autovivification_amended :
    ((setValueByPath cache0 (.obj []) "deeply.nested.path" (.str "value")).1 =
      .obj [("deeply", .obj [("nested", .obj [("path", .str "value")])])]) ∧
    (∀ (fs : List (String × JSVal)) (k : String) (rest : List String)
        (lastKey : String) (v : JSVal),
      k ≠ "" →
      ¬(hasOwnProp (.obj fs) k = true ∧ (getProp (.obj fs) k).isObjLike = true) →
      setSegs (.obj fs) (k :: rest) lastKey v =
        setProp (.obj fs) k (setSegs (.obj []) rest lastKey v)) ∧
    (∀ (gs : List (String × JSVal)) (ks : List String) (lastKey : String)
        (v : JSVal),
      (∀ s ∈ ks, s ≠ "") → lastKey ≠ "" → noArrays (.obj gs) = true →
      getSegs (setSegs (.obj gs) ks lastKey v) (ks ++ [lastKey]) = v) := by
  refine ⟨by decide, ?_, ?_⟩
  · intro fs k rest lastKey v hk hcond
    rw [setSegs_cons_ne _ _ _ _ _ hk, if_neg hcond]
  · intro gs ks lastKey v hks hlast hno
    exact getSegs_setSegs ks (.obj gs) lastKey v hks hlast ⟨gs, rfl⟩ hno

/-- Witness for the amended C6: replacing a scalar intermediate
(`{ a: 1 }`, key `"a"`) and reading back a two-segment write on `{}`. -/
theorem c6_set_autovivification_amended_witness :
    (setSegs (.obj [("a", .num 1)]) ["a"] "b" (.num 2) =
      setProp (.obj [("a", .num 1)]) "a" (setSegs (.obj []) [] "b" (.num 2))) ∧
    getSegs (setSegs (.obj []) ["x"] "y" (.num 3)) (["x"] ++ ["y"]) = .num 3 :=
  ⟨c6_set_autovivification_amended.2.1 [("a", .num 1)] "a" [] "b" (.num 2)
      (by decide) (by decide),
    c6_set_autovivification_amended.2.2 [] ["x"] "y" (.num 3)
      (by decide) (by decide) (by simp [noArrays, noArraysFields])⟩

/-- The demonstration heap for C4: the bound root lives at address 0
and its field `"n"` references the nested mapping `{ x: 1 }` at
address 1; address 1 is the "pre-existing alias" of the claim. -/
def mergeDemoHeap : Heap :=
  [(0, [("n", .href 1)]), (1, [("x", .hprim (.num 1))])]

/-- C4 counterexample.  The claim says mutable-mode merge mutates every
nested mapping below depth 1 by reference, so an alias to the nested
mapping observes the merged values.  It does not: the recursion
shallow-copies at every level (`{ ...target }` again in the recursive
call), so after `merge({ n: { x: 1 } }, { n: { y: 2 } })` in mutable
mode, the root's field points at a freshly built merged mapping (here
address 3) while the original nested mapping at address 1 still holds
only `{ x: 1 }` — the alias never sees `y`. -/
theorem c4_nested_alias_sees_no_merge :
    heapLookup
      (safePathMergeMut 3 mergeDemoHeap 2 0 [("n", .obj [("y", .num 2)])]).1.1
      1 = some [("x", .hprim (.num 1))] ∧
    heapLookup
      (safePathMergeMut 3 mergeDemoHeap 2 0 [("n", .obj [("y", .num 2)])]).1.1
      0 = some [("n", .href 3)] ∧
    heapLookup
      (safePathMergeMut 3 mergeDemoHeap 2 0 [("n", .obj [("y", .num 2)])]).1.1
      3 = some [("x", .hprim (.num 1)), ("y", .hprim (.num 2))] ∧
    lookupField [("x", HVal.hprim (.num 1))] "y" = none := by
  decide

/-- C4 amended.  In mutable mode `safePath.merge` updates the bound
top-level mapping in place (via `Object.assign`) after `deepMerge`
produced a shallow copy — but the recursion shallow-copies again at
every level, so **no nested mapping of the target is ever mutated**:
every pre-existing heap address other than the bound root keeps its
exact content, and a pre-existing alias to a nested mapping retains
its pre-merge values. -/
theorem c4_mutable_merge_frame :
    ∀ (fuel : Nat) (h : Heap) (c t : Nat) (src : List (String × JSVal))
      (a : Nat) (o : List (String × HVal)),
      HeapBound h c → heapLookup h a = some o → a ≠ t →
      heapLookup (safePathMergeMut fuel h c t src).1.1 a = some o := by
  intro fuel h c t src a o hb hl hat
  obtain ⟨hm1, hm2, hm3⟩ := deepMergeM_frame fuel src h c t hb
  have ha : a < c := heapLookup_lt hb hl
  show heapLookup (heapSet (deepMergeM fuel h c t src).1.1 t _) a = some o
  rw [heapLookup_heapSet_ne _ _ _ _ hat, hm3 a ha]
  exact hl

/-- Witness for the amended C4: on the demonstration heap, the nested
mapping at address 1 (≠ root address 0) keeps its content across a
mutable merge. -/
theorem c4_mutable_merge_frame_witness :
    HeapBound mergeDemoHeap 2 ∧
    heapLookup mergeDemoHeap 1 = some [("x", .hprim (.num 1))] ∧
    heapLookup
      (safePathMergeMut 5 mergeDemoHeap 2 0 [("n", .obj [("y", .num 2)])]).1.1
      1 = some [("x", .hprim (.num 1))] :=
  ⟨by decide, by decide,
    c4_mutable_merge_frame 5 mergeDemoHeap 2 0 [("n", .obj [("y", .num 2)])] 1
      [("x", .hprim (.num 1))] (by decide) (by decide) (by decide)⟩

/-- C7.  `_handleResult` applies the modifier short-circuits in the
fixed priority order: `undefined` with `optional` succeeds with
`undefined`; else `null` with `nullable` succeeds with `null`; else an
absent-or-null value with a configured default succeeds with the
default (with `transform`, if any, applied to the default); otherwise
— i.e. whenever none of the three modifier conditions applies, which
includes an `undefined` input on a non-optional, default-free
validator and a `null` input on a non-nullable, default-free one — the
variant check runs, `transform` is applied only to a successfully
validated value, and a failing outcome is returned unchanged
(`transform` never runs on failure).  The last two conjuncts state the
fall-through under exactly the negations of the three short-circuit
conditions, so they cover every input not claimed by conjuncts 1–4. -/
theorem c7_modifier_priority :
    (∀ (core : ValidatorCore) (check : Unit → VResult),
      core._optional = true →
      handleResult core .undefined check = .success .undefined) ∧
    (∀ (core : ValidatorCore) (check : Unit → VResult),
      core._nullable = true →
      handleResult core .null check = .success .null) ∧
    (∀ (core : ValidatorCore) (check : Unit → VResult) (dv : JSVal),
      core._optional = false → core._defaultValue = some dv →
      handleResult core .undefined check = .success (applyTransform core dv)) ∧
    (∀ (core : ValidatorCore) (check : Unit → VResult) (dv : JSVal),
      core._nullable = false → core._defaultValue = some dv →
      handleResult core .null check = .success (applyTransform core dv)) ∧
    (∀ (core : ValidatorCore) (check : Unit → VResult) (data : JSVal)
        (es : List VError),
      ¬(data = .undefined ∧ core._optional = true) →
      ¬(data = .null ∧ core._nullable = true) →
      ¬((data = .undefined ∨ data = .null) ∧ core._defaultValue.isSome = true) →
      check () = .failure es →
      handleResult core data check = .failure es) ∧
    (∀ (core : ValidatorCore) (check : Unit → VResult) (data d : JSVal),
      ¬(data = .undefined ∧ core._optional = true) →
      ¬(data = .null ∧ core._nullable = true) →
      ¬((data = .undefined ∨ data = .null) ∧ core._defaultValue.isSome = true) →
      check () = .success d →
      handleResult core data check = .success (applyTransform core d)) := by
  refine ⟨?_, ?_, ?_, ?_, ?_, ?_⟩
  · intro core check hopt
    simp [handleResult, hopt]
  · intro core check hnul
    simp [handleResult, hnul]
  · intro core check dv hopt hdef
    simp [handleResult, hopt, hdef]
  · intro core check dv hnul hdef
    simp [handleResult, hnul, hdef]
  · intro core check data es h1 h2 h3 hchk
    simp only [handleResult, if_neg h1, if_neg h2, if_neg h3, hchk]
  · intro core check data d h1 h2 h3 hchk
    simp only [handleResult, if_neg h1, if_neg h2, if_neg h3, hchk]

/-- Witness for C7: each priority branch exercised at a concrete
configuration and input, including the claim's "otherwise" on
absent-or-null inputs with no applicable modifier: a plain (required)
validator receiving `undefined` or `null` falls through to the variant
check and fails — shown both on `handleResult` directly and, for
`undefined`, through the real `string()` pipeline. -/
theorem c7_modifier_priority_witness :
    handleResult { _optional := true } .undefined (fun _ => .failure []) =
      .success .undefined ∧
    handleResult { _nullable := true } .null (fun _ => .failure []) =
      .success .null ∧
    handleResult { _defaultValue := some (.num 7) } .undefined (fun _ => .failure []) =
      .success (applyTransform { _defaultValue := some (.num 7) } (.num 7)) ∧
    handleResult { _defaultValue := some (.num 7) } .null (fun _ => .failure []) =
      .success (applyTransform { _defaultValue := some (.num 7) } (.num 7)) ∧
    handleResult {} .undefined
      (fun _ => .failure [⟨"", "Expected string", .undefined, some "string"⟩]) =
      .failure [⟨"", "Expected string", .undefined, some "string"⟩] ∧
    handleResult {} .null
      (fun _ => .failure [⟨"", "Expected string", .null, some "string"⟩]) =
      .failure [⟨"", "Expected string", .null, some "string"⟩] ∧
    handleResult {} (.str "x")
      (fun _ => .failure [⟨"", "Expected number", .str "x", some "number"⟩]) =
      .failure [⟨"", "Expected number", .str "x", some "number"⟩] ∧
    handleResult {} (.num 1) (fun _ => .success (.num 1)) =
      .success (applyTransform {} (.num 1)) ∧
    stringValidate (fun _ => false) sString .undefined =
      .failure [⟨"", "Expected string", .undefined, some "string"⟩] :=
  ⟨c7_modifier_priority.1 _ _ rfl,
    c7_modifier_priority.2.1 _ _ rfl,
    c7_modifier_priority.2.2.1 _ _ (.num 7) rfl rfl,
    c7_modifier_priority.2.2.2.1 _ _ (.num 7) rfl rfl,
    c7_modifier_priority.2.2.2.2.1 _ _ .undefined _
      (by decide) (by decide) (by decide) rfl,
    c7_modifier_priority.2.2.2.2.1 _ _ .null _
      (by decide) (by decide) (by decide) rfl,
    c7_modifier_priority.2.2.2.2.1 _ _ (.str "x") _
      (by decide) (by decide) (by decide) rfl,
    c7_modifier_priority.2.2.2.2.2 _ _ (.num 1) (.num 1)
      (by decide) (by decide) (by decide) rfl,
    by decide⟩

/-- C8.  Once the base type check passes, all configured constraints
are evaluated and every violation is collected into one failure
outcome: `number().min(0).max(10).validate(-5)` yields exactly one
error whose message contains `"at least 0"`, and
`string().min(5).email().validate("ab")` yields exactly the two
errors (minimum-length and email-shape) in a single failure outcome. -/
theorem c8_constraint_error_accumulation :
    numberValidate ((sNumber.min 0).max 10) (.num (-5)) =
      .failure [⟨"", "Number must be at least 0", .num (-5), some ">= 0"⟩] ∧
    ("at least 0".data <:+: "Number must be at least 0".data) ∧
    stringValidate (fun _ => false) ((sString.min 5).email) (.str "ab") =
      .failure
        [⟨"", "String must be at least 5 characters", .str "ab",
          some "min length 5"⟩,
         ⟨"", "Invalid email format", .str "ab", some "valid email"⟩] := by
  decide

/-- A cache filled to capacity whose earliest-inserted entry is the
empty path string (the empty path is cached like any other: parsing
`""` stores `[""]` under the key `""`). -/
def evictDemoCache : PathCache :=
  ("", [""]) :: (List.range 999).map (fun i => (natToStr i, [natToStr i]))

/-- A cache filled to capacity whose earliest-inserted entry has the
non-empty key `"a"`. -/
def evictDemoCacheA : PathCache :=
  ("a", ["a"]) :: (List.range 999).map (fun i => (natToStr i, [natToStr i]))

set_option maxRecDepth 100000 in
/-- C9.  The claim states the cache holds at most `MAX_CACHE_SIZE`
(1000) entries and that an insertion at capacity evicts the
earliest-inserted entry.  The eviction code reads the first key and
guards the delete with `if (firstKey)`, a truthiness test — so when
the earliest-inserted key is the empty string `""` (a real cache key:
parsing the empty path stores it), nothing is evicted and the cache
grows beyond its fixed capacity, contradicting the code's own comment
("Remove oldest entry") and the claimed bound.  With a non-empty
oldest key the claimed first-in-first-out behavior does hold, and a
re-parse of an evicted path recomputes segments value-equal to the
original (second half). -/
theorem c9_eviction_skipped_for_empty_key :
    (evictDemoCache.length = MAX_CACHE_SIZE ∧
      (parsePath evictDemoCache "x").2.length = MAX_CACHE_SIZE + 1 ∧
      cacheLookup (parsePath evictDemoCache "x").2 "" = some [""]) ∧
    (evictDemoCacheA.length = MAX_CACHE_SIZE ∧
      (parsePath evictDemoCacheA "x").2.length = MAX_CACHE_SIZE ∧
      cacheLookup (parsePath evictDemoCacheA "x").2 "a" = none ∧
      (parsePath (parsePath evictDemoCacheA "x").2 "a").1 = ["a"] ∧
      splitDot "a" = ["a"]) := by
  decide

/-- C10.  A sequence encountered mid-path is traversed into, not
treated as a dead end: `get` and `has` index into the array by the
segment name (a canonical numeric segment addresses an element and can
succeed), and `set` descends into an existing array at an intermediate
segment instead of replacing it with a fresh empty mapping.  The last
two conjuncts run the full cached-path pipeline on `"items.0"`. -/
theorem c10_sequences_traversed :
    (∀ (xs : List (Option JSVal)) (k : String) (i : Nat) (w : JSVal)
        (ks : List String),
      strToIndex k = some i → xs[i]? = some (some w) →
      getSegs (.arr xs) (k :: ks) = getSegs w ks) ∧
    (∀ (xs : List (Option JSVal)) (k : String) (i : Nat) (w : JSVal)
        (ks : List String),
      strToIndex k = some i → xs[i]? = some (some w) →
      hasSegs (.arr xs) (k :: ks) = hasSegs w ks) ∧
    (∀ (fs : List (String × JSVal)) (k : String) (xs : List (Option JSVal))
        (rest : List String) (lastKey : String) (v : JSVal),
      k ≠ "" → lookupField fs k = some (.arr xs) →
      setSegs (.obj fs) (k :: rest) lastKey v =
        setProp (.obj fs) k (setSegs (.arr xs) rest lastKey v)) ∧
    ((getValueByPath cache0 (.obj [("items", .arr [some (.num 42)])])
      "items.0").1 = .num 42) ∧
    ((hasPath cache0 (.obj [("items", .arr [some (.num 42)])]) "items.0").1 =
      true) := by
  have hempty : strToIndex "" = none := rfl
  have hlen : strToIndex "length" = none := rfl
  refine ⟨?_, ?_, ?_, by decide, by decide⟩
  · intro xs k i w ks hidx hget
    have hk : k ≠ "" := fun he => by rw [he, hempty] at hidx; exact absurd hidx (by simp)
    have hkl : k ≠ "length" := fun he => by
      rw [he, hlen] at hidx; exact absurd hidx (by simp)
    simp [getSegs, JSVal.isObjLike, hk, getProp, arrGet, hkl, hidx, hget]
  · intro xs k i w ks hidx hget
    have hk : k ≠ "" := fun he => by rw [he, hempty] at hidx; exact absurd hidx (by simp)
    have hkl : k ≠ "length" := fun he => by
      rw [he, hlen] at hidx; exact absurd hidx (by simp)
    simp [hasSegs, JSVal.isObjLike, hasOwnProp, hk, getProp, arrGet, hkl, hidx, hget]
  · intro fs k xs rest lastKey v hk hlk
    have hgp : getProp (.obj fs) k = .arr xs := by simp [getProp, hlk]
    rw [setSegs_cons_ne _ _ _ _ _ hk,
      if_pos ⟨by simp [hasOwnProp, hlk], by rw [hgp]; rfl⟩, hgp]

/-- Witness for C10: the element read, existence check and descending
write, at the concrete array `[5]` (resp. `{ a: [7] }`). -/
theorem c10_sequences_traversed_witness :
    getSegs (.arr [some (.num 5)]) ["0"] = getSegs (.num 5) [] ∧
    hasSegs (.arr [some (.num 5)]) ["0"] = hasSegs (.num 5) [] ∧
    setSegs (.obj [("a", .arr [some (.num 7)])]) ["a"] "0" (.num 9) =
      setProp (.obj [("a", .arr [some (.num 7)])]) "a"
        (setSegs (.arr [some (.num 7)]) [] "0" (.num 9)) :=
  ⟨c10_sequences_traversed.1 [some (.num 5)] "0" 0 (.num 5) []
      (by decide) (by decide),
    c10_sequences_traversed.2.1 [some (.num 5)] "0" 0 (.num 5) []
      (by decide) (by decide),
    c10_sequences_traversed.2.2.1 [("a", .arr [some (.num 7)])] "a"
      [some (.num 7)] [] "0" (.num 9) (by decide) (by decide)⟩
